import Mathlib

/-!
Verification of the eISCP/ISCP client (eiscp/core.py) against its
natural-language specification.

Python byte strings are modelled as `List Nat` (one entry per byte);
Python text strings handled by the codec are likewise modelled as lists of
code points, so that `bytes.decode()` is the identity on the model (the
payloads the claims exercise are ASCII).  Python `str` values handled by the
command translator are modelled as `List Char`.  Fallible Python code
(assertions, KeyError, ValueError, unbound locals) is modelled with
`Option` / `Except`.
-/

/-- Byte codes used by the codec: `'!'` = 33, `'1'` = 49, CR = 13, LF = 10,
EOF = 26, and the magic `"ISCP"` = [73, 83, 67, 80]. -/
def isTerm (c : Nat) : Bool := c = 10 || c = 13

/-- `ISCPMessage.__str__`: `'!1{}\r'.format(self.data)` — the wrapped
outgoing payload is `"!1" ++ body ++ CR` (note: no EOF byte is appended). -/
def iscpWrap (body : List Nat) : List Nat := [33, 49] ++ body ++ [13]

/-- `ISCPMessage.parse`: asserts the `"!1"` lead-in, walks back over at most
two trailing CR/LF terminator bytes, asserts the byte there is EOF (0x1A),
and returns the slice `data[2:eof_offset]`.  A failed `assert` is `none`. -/
def iscpParse (data : List Nat) : Option (List Nat) :=
  if data.take 2 = [33, 49] then
    let r := data.reverse
    let c : Nat :=
      match r with
      | a :: b :: _ => if isTerm a then (if isTerm b then 2 else 1) else 0
      | a :: [] => if isTerm a then 1 else 0
      | [] => 0
    if r.get? c = some 26 then
      some ((data.take (data.length - (1 + c))).drop 2)
    else none
  else none

/-- Big-endian 4-byte encoding of a `struct.pack '!I'` field. -/
def be4 (n : Nat) : List Nat :=
  [n / 16777216 % 256, n / 65536 % 256, n / 256 % 256, n % 256]

/-- `eISCPPacket.__init__`: 16-byte header (magic `"ISCP"`, header size 16,
data size `len(iscp_message)`, version 1, three reserved zero bytes, all
big-endian) followed by the wrapped message bytes.  `struct.pack` fails when
a `I` field does not fit 32 bits, hence the `Option`. -/
def eiscpPacket (body : List Nat) : Option (List Nat) :=
  let payload := iscpWrap body
  if payload.length < 4294967296 then
    some ([73, 83, 67, 80] ++ be4 16 ++ be4 payload.length ++ [1, 0, 0, 0] ++ payload)
  else none

/-- Claim C1 (counterexample): with body `"PWR01"` (no embedded EOF byte),
parsing the payload of `encode(body)` does not return the body: the encoder
(`ISCPMessage.__str__`) emits `"!1" ++ body ++ CR` with no EOF byte, so
`ISCPMessage.parse` fails its EOF assertion instead of returning the body. -/
theorem iscp_roundtrip_cex :
    iscpParse (iscpWrap [80, 87, 82, 48, 49]) = none ∧
    iscpParse (iscpWrap [80, 87, 82, 48, 49]) ≠ some [80, 87, 82, 48, 49] := by
  constructor
  · rfl
  · decide

/-- Claim C1 (amended): for every command body without an embedded EOF byte,
parsing the EOF-carrying payload `"!1" ++ body ++ EOF ++ CR` — the form the
receiver actually sends — yields the body again; the encoder itself omits
the EOF byte, so `parse (encode body)` is not the identity. -/
theorem iscp_parse_of_eof_payload (body : List Nat) (h : 26 ∉ body) :
    iscpParse ([33, 49] ++ body ++ [26, 13]) = some body := by
  unfold iscpParse
  have hrev : ([33, 49] ++ body ++ [26, 13]).reverse
      = 13 :: 26 :: (body.reverse ++ [49, 33]) := by
    simp [List.reverse_append]
  rw [hrev]
  simp only [List.take_append_of_le_length, isTerm]
  norm_num
  have h2 : body.length + 2 + 1 + 1 - 2 = 2 + body.length := by omega
  have hsplit : (33 : Nat) :: 49 :: (body ++ [26, 13]) = ([33, 49] ++ body) ++ [26, 13] := by
    simp
  rw [h2, hsplit, List.take_left' (by simp; omega)]
  rfl

/-- Claim C2 (counterexample): `encode("P")` is not the header plus
`"!1" ++ "P" ++ EOF ++ CR` with a payload-length field of 5; the code emits
`"!1" ++ "P" ++ CR` (no EOF byte) with a payload-length field of 4. -/
theorem eiscp_packet_cex :
    eiscpPacket [80]
      ≠ some ([73, 83, 67, 80] ++ be4 16 ++ be4 5 ++ [1, 0, 0, 0]
              ++ [33, 49, 80, 26, 13]) ∧
    eiscpPacket [80]
      = some ([73, 83, 67, 80] ++ be4 16 ++ be4 4 ++ [1, 0, 0, 0]
              ++ [33, 49, 80, 13]) := by
  constructor
  · decide
  · rfl

/-- Claim C2 (amended): for every body (whose wrapped length fits the 32-bit
length field), `encode` yields exactly the 16-byte big-endian header — magic
`"ISCP"`, header-length field 16, payload-length field `body.length + 3`
(the byte length of the wrapped text), version 1, three zero reserved
bytes — followed by the wrapped payload `"!1" ++ body ++ CR` (no EOF byte). -/
theorem eiscp_packet_layout (body : List Nat) (h : body.length + 3 < 4294967296) :
    eiscpPacket body
      = some ([73, 83, 67, 80] ++ be4 16 ++ be4 (body.length + 3) ++ [1, 0, 0, 0]
              ++ ([33, 49] ++ body ++ [13])) := by
  unfold eiscpPacket iscpWrap
  have hlen : ([33, 49] ++ body ++ [13]).length = body.length + 3 := by
    simp [List.length_append]
  simp only [hlen]
  rw [if_pos h]

/-- Witness for `iscp_parse_of_eof_payload` at body `"PWR01"`. -/
theorem iscp_parse_of_eof_payload_witness :
    26 ∉ [80, 87, 82, 48, 49] ∧
    iscpParse ([33, 49] ++ [80, 87, 82, 48, 49] ++ [26, 13])
      = some [80, 87, 82, 48, 49] :=
  ⟨by decide, iscp_parse_of_eof_payload [80, 87, 82, 48, 49] (by decide)⟩

/-- Witness for `eiscp_packet_layout` at body `"PWR01"`. -/
theorem eiscp_packet_layout_witness :
    [80, 87, 82, 48, 49].length + 3 < 4294967296 ∧
    eiscpPacket [80, 87, 82, 48, 49]
      = some ([73, 83, 67, 80] ++ be4 16 ++ be4 ([80, 87, 82, 48, 49].length + 3)
              ++ [1, 0, 0, 0] ++ ([33, 49] ++ [80, 87, 82, 48, 49] ++ [13])) :=
  ⟨by norm_num, eiscp_packet_layout [80, 87, 82, 48, 49] (by norm_num)⟩

/-- `eISCPPacket.parse_header`: asserts exactly 16 bytes, magic `"ISCP"`,
and a header-size field of 16; returns the data-size field.  All integer
fields are big-endian (`struct.unpack '! 4s I I b 3s'`).  A failed assert is
`none`. -/
def parseHeader (bs : List Nat) : Option Nat :=
  match bs with
  | [m0, m1, m2, m3, h0, h1, h2, h3, d0, d1, d2, d3, _, _, _, _] =>
    if [m0, m1, m2, m3] = [73, 83, 67, 80] ∧
        ((h0 * 256 + h1) * 256 + h2) * 256 + h3 = 16 then
      some (((d0 * 256 + d1) * 256 + d2) * 256 + d3)
    else none
  | _ => none

/-- Result of one `MessageBuffer.get_message` call: no complete frame yet,
a decoded message together with the remaining buffer, or a raised
`AssertionError` (from `parse_header` or `ISCPMessage.parse`). -/
inductive GM where
  | nomsg : GM
  | msg : List Nat → List Nat → GM
  | err : GM
deriving DecidableEq

/-- `MessageBuffer.get_message`: with at least 16 buffered bytes, parse the
header; once the full frame `16 + data_size` is buffered, decode the
payload with `ISCPMessage.parse` and drop the consumed bytes.  The buffer
is mutated only after a successful parse, so a raised assertion leaves it
unchanged. -/
def getMessage (buf : List Nat) : GM :=
  if 16 ≤ buf.length then
    match parseHeader (buf.take 16) with
    | none => .err
    | some ds =>
      if ds + 16 ≤ buf.length then
        match iscpParse ((buf.drop 16).take ds) with
        | none => .err
        | some m => .msg m (buf.drop (16 + ds))
      else .nomsg
  else .nomsg

theorem getMessage_msg_length {buf m rest : List Nat}
    (h : getMessage buf = GM.msg m rest) : rest.length < buf.length := by
  unfold getMessage at h
  split at h
  · split at h
    · exact absurd h (by simp)
    · split at h
      · split at h
        · exact absurd h (by simp)
        · cases h
          simp only [List.length_drop]
          omega
      · exact absurd h (by simp)
  · exact absurd h (by simp)

/-- Drain a buffer: call `get_message` until it yields no message (callers
drain a backlog by calling repeatedly).  A raised assertion (`err`) aborts
the draining with the buffer unchanged, exactly as the exception would
propagate out of the Python call. -/
def drain (buf : List Nat) : List (List Nat) × List Nat :=
  match h : getMessage buf with
  | .msg m rest =>
    let p := drain rest
    (m :: p.1, p.2)
  | .nomsg => ([], buf)
  | .err => ([], buf)
termination_by buf.length
decreasing_by exact getMessage_msg_length h

theorem drain_msg {b m rest : List Nat} (h : getMessage b = GM.msg m rest) :
    drain b = (m :: (drain rest).1, (drain rest).2) := by
  rw [drain]
  split <;> simp_all

theorem drain_nomsg {b : List Nat} (h : getMessage b = GM.nomsg) :
    drain b = ([], b) := by
  rw [drain]
  split <;> simp_all

theorem drain_err {b : List Nat} (h : getMessage b = GM.err) :
    drain b = ([], b) := by
  rw [drain]
  split <;> simp_all

theorem getMessage_append_msg {buf c m rest : List Nat}
    (h : getMessage buf = GM.msg m rest) :
    getMessage (buf ++ c) = GM.msg m (rest ++ c) := by
  unfold getMessage at h ⊢
  by_cases h16 : 16 ≤ buf.length
  · have h16' : 16 ≤ (buf ++ c).length := by
      simp only [List.length_append]; omega
    rw [if_pos h16] at h
    rw [if_pos h16', List.take_append_of_le_length h16]
    cases hph : parseHeader (buf.take 16) with
    | none =>
      simp only [hph] at h
      exact absurd h (by simp)
    | some ds =>
      simp only [hph] at h ⊢
      by_cases hds : ds + 16 ≤ buf.length
      · have hds' : ds + 16 ≤ (buf ++ c).length := by
          simp only [List.length_append]; omega
        have hdrop : (buf ++ c).drop 16 = buf.drop 16 ++ c :=
          List.drop_append_of_le_length h16
        have htake : (buf.drop 16 ++ c).take ds = (buf.drop 16).take ds := by
          apply List.take_append_of_le_length
          simp only [List.length_drop]; omega
        rw [if_pos hds] at h
        rw [if_pos hds', hdrop, htake]
        cases hip : iscpParse ((buf.drop 16).take ds) with
        | none =>
          simp only [hip] at h
          exact absurd h (by simp)
        | some m2 =>
          simp only [hip] at h ⊢
          cases h
          have : (buf ++ c).drop (16 + ds) = buf.drop (16 + ds) ++ c :=
            List.drop_append_of_le_length (by omega)
          rw [this]
      · rw [if_neg hds] at h
        exact absurd h (by simp)
  · rw [if_neg h16] at h
    exact absurd h (by simp)

theorem getMessage_append_err {buf c : List Nat} (h : getMessage buf = GM.err) :
    getMessage (buf ++ c) = GM.err := by
  unfold getMessage at h ⊢
  by_cases h16 : 16 ≤ buf.length
  · have h16' : 16 ≤ (buf ++ c).length := by
      simp only [List.length_append]; omega
    rw [if_pos h16] at h
    rw [if_pos h16', List.take_append_of_le_length h16]
    cases hph : parseHeader (buf.take 16) with
    | none => simp only [hph]
    | some ds =>
      simp only [hph] at h ⊢
      by_cases hds : ds + 16 ≤ buf.length
      · have hds' : ds + 16 ≤ (buf ++ c).length := by
          simp only [List.length_append]; omega
        have hdrop : (buf ++ c).drop 16 = buf.drop 16 ++ c :=
          List.drop_append_of_le_length h16
        have htake : (buf.drop 16 ++ c).take ds = (buf.drop 16).take ds := by
          apply List.take_append_of_le_length
          simp only [List.length_drop]; omega
        rw [if_pos hds] at h
        rw [if_pos hds', hdrop, htake]
        cases hip : iscpParse ((buf.drop 16).take ds) with
        | none => simp
        | some m2 =>
          simp only [hip] at h
          exact absurd h (by simp)
      · rw [if_neg hds] at h
        exact absurd h (by simp)
  · rw [if_neg h16] at h
    exact absurd h (by simp)

theorem drain_snd_stuck (buf : List Nat) :
    getMessage (drain buf).2 = GM.nomsg ∨ getMessage (drain buf).2 = GM.err := by
  generalize hn : buf.length = n
  induction n using Nat.strong_induction_on generalizing buf with
  | _ n ih =>
    subst hn
    cases hgm : getMessage buf with
    | msg m rest =>
      rw [drain_msg hgm]
      simpa using ih rest.length (getMessage_msg_length hgm) rest rfl
    | nomsg => rw [drain_nomsg hgm]; exact Or.inl hgm
    | err => rw [drain_err hgm]; exact Or.inr hgm

theorem drain_of_stuck {buf : List Nat}
    (h : getMessage buf = GM.nomsg ∨ getMessage buf = GM.err) :
    drain buf = ([], buf) := by
  cases h with
  | inl h => exact drain_nomsg h
  | inr h => exact drain_err h

theorem drain_append (b c : List Nat) :
    drain (b ++ c) = ((drain b).1 ++ (drain ((drain b).2 ++ c)).1,
                      (drain ((drain b).2 ++ c)).2) := by
  generalize hn : b.length = n
  induction n using Nat.strong_induction_on generalizing b with
  | _ n ih =>
    subst hn
    cases hgm : getMessage b with
    | msg m rest =>
      rw [drain_msg hgm, drain_msg (getMessage_append_msg hgm)]
      have := ih rest.length (getMessage_msg_length hgm) rest rfl
      simp [this]
    | nomsg => rw [drain_nomsg hgm]; simp
    | err =>
      rw [drain_err hgm, drain_err (getMessage_append_err hgm)]
      simp [drain_err (getMessage_append_err hgm)]

/-- Feed a byte stream to the buffer one chunk per `recv` call, draining
with `get_message` after each chunk; returns the extracted messages in
order together with the final buffer contents. -/
def processChunks (buf : List Nat) (chunks : List (List Nat)) :
    List (List Nat) × List Nat :=
  match chunks with
  | [] => ([], buf)
  | chunk :: rest =>
    let p := drain (buf ++ chunk)
    let q := processChunks p.2 rest
    (p.1 ++ q.1, q.2)

theorem processChunks_eq_drain_flatten (chunks : List (List Nat))
    (buf : List Nat) (hb : drain buf = ([], buf)) :
    processChunks buf chunks = drain (buf ++ chunks.flatten) := by
  induction chunks generalizing buf with
  | nil => simp [processChunks, hb]
  | cons chunk rest ih =>
    have hstuck : drain (drain (buf ++ chunk)).2 = ([], (drain (buf ++ chunk)).2) :=
      drain_of_stuck (drain_snd_stuck (buf ++ chunk))
    have hrec := ih (drain (buf ++ chunk)).2 hstuck
    have hassoc : buf ++ (chunk :: rest).flatten = (buf ++ chunk) ++ rest.flatten := by
      simp [List.flatten]
    rw [hassoc, drain_append (buf ++ chunk) rest.flatten]
    simp only [processChunks, hrec]

/-- Claim C4: feeding a byte stream to `MessageBuffer.recv` in arbitrary
successive chunks, draining with `get_message` after each chunk, yields the
same ordered sequence of complete decoded messages — and the same final
(partial-frame) buffer contents — as feeding the concatenated stream in one
`recv` call and draining.  Partial frames are retained between calls, which
is exactly what the common final buffer expresses. -/
theorem messageBuffer_chunking_invariant (chunks : List (List Nat)) :
    processChunks [] chunks = drain chunks.flatten := by
  have h0 : drain ([] : List Nat) = ([], []) := drain_nomsg rfl
  simpa using processChunks_eq_drain_flatten chunks [] h0

/-- State of an `eISCP` client as far as `get` observes it: whether
`command_socket` is set, and the `MessageBuffer` contents. -/
structure ClientState where
  connected : Bool
  buffer : List Nat
deriving DecidableEq

/-- `eISCP._ensure_socket_connected`: a no-op when a socket exists;
otherwise connect (modelled as succeeding) and reset the message buffer. -/
def ensureConnected (st : ClientState) : ClientState :=
  if st.connected then st else { connected := true, buffer := [] }

/-- `eISCP.get`: ensure connected; return a buffered message first if one is
complete; else, if the socket is readable, read `data`, append it to the
buffer, and on a zero-length read disconnect (drop the socket, keeping the
buffer) and return `None`; otherwise extract at most one message.  An
`AssertionError` raised by `get_message` propagates (`Except.error`).  The
bytes `data` produced by the socket read are an input of the model. -/
def eiscpGet (st : ClientState) (readable : Bool) (data : List Nat) :
    Except Unit (Option (List Nat) × ClientState) :=
  let st1 := ensureConnected st
  match getMessage st1.buffer with
  | .msg m rest => .ok (some m, { st1 with buffer := rest })
  | .err => .error ()
  | .nomsg =>
    if readable then
      let buf2 := st1.buffer ++ data
      if data.length = 0 then
        .ok (none, { connected := false, buffer := buf2 })
      else
        match getMessage buf2 with
        | .msg m rest => .ok (some m, { st1 with buffer := rest })
        | .nomsg => .ok (none, { st1 with buffer := buf2 })
        | .err => .error ()
    else .ok (none, st1)

/-- Claim C9: when the client is connected, no complete message is waiting
in the buffer, the socket selects readable, and the read returns zero
bytes, `eISCP.get` treats the peer as closed: it clears the connection
state (keeping the buffered partial data) and returns `None` — it neither
raises nor returns a message — and the next call's
`_ensure_socket_connected` reconnects with a fresh buffer. -/
theorem get_zero_read_disconnects (st : ClientState)
    (hc : st.connected = true) (hb : getMessage st.buffer = GM.nomsg) :
    eiscpGet st true []
      = .ok (none, { connected := false, buffer := st.buffer }) ∧
    ensureConnected { connected := false, buffer := st.buffer }
      = { connected := true, buffer := [] } := by
  constructor
  · have h1 : ensureConnected st = st := by
      unfold ensureConnected
      rw [hc]
      simp
    simp only [eiscpGet, h1]
    rw [hb]
    simp
  · rfl

/-- Witness for `get_zero_read_disconnects` at the freshly connected state. -/
theorem get_zero_read_disconnects_witness :
    getMessage (ClientState.mk true []).buffer = GM.nomsg ∧
    (eiscpGet (ClientState.mk true []) true []
        = .ok (none, { connected := false, buffer := (ClientState.mk true []).buffer }) ∧
      ensureConnected { connected := false, buffer := (ClientState.mk true []).buffer }
        = { connected := true, buffer := [] }) :=
  ⟨by decide, get_zero_read_disconnects (ClientState.mk true []) rfl (by decide)⟩

/-- Python's substring test `p in s`, on char lists. -/
def chInfixOf (p s : List Char) : Bool :=
  p.isPrefixOf s ||
    match s with
    | [] => false
    | _ :: t => chInfixOf p t

/-- One candidate check of `filter_for_message`: a truthy (non-empty)
candidate whose 3-character head equals the sent message's head, or an
`"MDI"` candidate for an `"MGS"` message, is returned. -/
def fmStep (msg : List Char) (cand : Option (List Char)) : Option (List Char) :=
  match cand with
  | some c =>
    if c ≠ [] ∧ c.take 3 = msg.take 3 then some c
    else if c ≠ [] ∧ c.take 3 = ['M', 'D', 'I'] ∧ msg.take 3 = ['M', 'G', 'S'] then
      some c
    else none
  | none => none

/-- Outcome of `filter_for_message`: a returned message, or the raised
`ValueError` for `Timeout waiting for response`. -/
inductive FMOut where
  | found : List Char → FMOut
  | timeoutError : FMOut
deriving DecidableEq

/-- `filter_for_message`, driven by a trace of poll outcomes: the i-th
entry is what the i-th `getter_func(0.05)` call returns (`none` for no
message) paired with the elapsed wall-clock time `time.time() - start` at
that iteration's deadline check.  Per iteration the code checks, in order:
candidate match, the `"CTV" in msg[:3]` exemption, then the 5-second
deadline.  The result carries the number of getter calls consumed; `none`
means the trace ended before the loop returned (the real loop polls on). -/
def filterForMessage (msg : List Char) :
    List (Option (List Char) × ℚ) → Option (FMOut × Nat)
  | [] => none
  | (cand, t) :: rest =>
    match fmStep msg cand with
    | some c => some (.found c, 1)
    | none =>
      if chInfixOf ['C', 'T', 'V'] (msg.take 3) then some (.found msg, 1)
      else if t > 5 then some (.timeoutError, 1)
      else (filterForMessage msg rest).map (fun p => (p.1, p.2 + 1))

/-- Claim C6 (counterexample): for the sent message `"CTV1"` the wait is
not satisfied `without performing any poll`: with no poll outcome
available the loop does not return at all, and with one empty poll it
returns only after consuming that one `getter_func` call (count 1, not 0) —
`filter_for_message` always polls before its CTV exemption. -/
theorem ctv_no_poll_cex :
    filterForMessage ['C', 'T', 'V', '1'] [] = none ∧
    filterForMessage ['C', 'T', 'V', '1'] [(none, 0)]
      = some (FMOut.found ['C', 'T', 'V', '1'], 1) := by
  constructor
  · rfl
  · rfl

/-- Claim C6 (amended): for every sent message whose first three characters
are `"CTV"`, `filter_for_message` returns after exactly one
`getter_func(0.05)` call, whatever that poll yields and whatever the
clock says: a first poll result passing the normal match rules is
returned, and otherwise the sent message itself is; the 5-second deadline
check is never reached. -/
theorem ctv_one_poll (msg : List Char) (cand : Option (List Char)) (t : ℚ)
    (rest : List (Option (List Char) × ℚ)) (h : msg.take 3 = ['C', 'T', 'V']) :
    filterForMessage msg ((cand, t) :: rest)
      = some ((match fmStep msg cand with
               | some c => FMOut.found c
               | none => FMOut.found msg), 1) := by
  unfold filterForMessage
  cases hs : fmStep msg cand with
  | some c => rfl
  | none =>
    have hctv : chInfixOf ['C', 'T', 'V'] (['C', 'T', 'V'] : List Char) = true := by
      decide
    rw [h, hctv]
    simp

/-- Witness for `ctv_one_poll`: message `"CTV1"`, one empty poll. -/
theorem ctv_one_poll_witness :
    (['C', 'T', 'V', '1'] : List Char).take 3 = ['C', 'T', 'V'] ∧
    filterForMessage ['C', 'T', 'V', '1'] [(none, 1)]
      = some ((match fmStep ['C', 'T', 'V', '1'] none with
               | some c => FMOut.found c
               | none => FMOut.found ['C', 'T', 'V', '1']), 1) :=
  ⟨by decide, ctv_one_poll ['C', 'T', 'V', '1'] none 1 [] (by decide)⟩

theorem chInfixOf_ctv_take3 (msg : List Char)
    (hne : msg.take 3 ≠ ['C', 'T', 'V']) :
    chInfixOf ['C', 'T', 'V'] (msg.take 3) = false := by
  have hlen : (msg.take 3).length ≤ 3 := by
    simp [List.length_take]
  generalize hl : msg.take 3 = l at hne hlen ⊢
  match l with
  | [] => rfl
  | [a] => simp [chInfixOf, List.isPrefixOf]
  | [a, b] => simp [chInfixOf, List.isPrefixOf]
  | [a, b, c] =>
    by_cases ha : a = 'C'
    · by_cases hb : b = 'T'
      · by_cases hc : c = 'V'
        · exact absurd (by rw [ha, hb, hc]) hne
        · simp only [chInfixOf, List.isPrefixOf, ha, hb]
          simp
          exact fun hvc => hc hvc.symm
      · simp only [chInfixOf, List.isPrefixOf, ha]
        simp
        intro h1
        exact absurd h1.symm hb
    · simp only [chInfixOf, List.isPrefixOf]
      simp
      intro h1
      exact absurd h1.symm ha
  | a :: b :: c :: d :: r => simp at hlen

/-- Claim C7: for a sent message whose 3-character head is not `"CTV"`,
if no poll outcome in the trace matches the correlation rules (same
3-character head, or the MDI-for-MGS alias) and the elapsed wall clock
exceeds the 5-second budget at some iteration, `filter_for_message`
raises the Timeout `ValueError` — it neither returns a non-matching
message nor keeps polling past the trace. -/
theorem request_timeout (msg : List Char)
    (trace : List (Option (List Char) × ℚ))
    (hctv : msg.take 3 ≠ ['C', 'T', 'V'])
    (hnomatch : ∀ p ∈ trace, fmStep msg p.1 = none)
    (hlate : ∃ p ∈ trace, p.2 > 5) :
    ∃ n, filterForMessage msg trace = some (FMOut.timeoutError, n) := by
  induction trace with
  | nil => simp at hlate
  | cons hd rest ih =>
    obtain ⟨cand, t⟩ := hd
    have hstep : fmStep msg cand = none := hnomatch (cand, t) (by simp)
    have hinf := chInfixOf_ctv_take3 msg hctv
    unfold filterForMessage
    rw [hstep, hinf]
    by_cases ht : t > 5
    · exact ⟨1, by rw [if_pos ht]; rfl⟩
    · have hnomatch' : ∀ p ∈ rest, fmStep msg p.1 = none := by
        intro p hp
        exact hnomatch p (List.mem_cons_of_mem _ hp)
      have hlate' : ∃ p ∈ rest, p.2 > 5 := by
        obtain ⟨p, hp, hpt⟩ := hlate
        rcases List.mem_cons.mp hp with hp1 | hp2
        · rw [hp1] at hpt
          exact absurd hpt ht
        · exact ⟨p, hp2, hpt⟩
      obtain ⟨n, hn⟩ := ih hnomatch' hlate'
      refine ⟨n + 1, ?_⟩
      rw [if_neg ht, hn]
      rfl

/-- Witness for `request_timeout`: message `"PWR"`, one empty poll with the
clock past 5 seconds. -/
theorem request_timeout_witness :
    (['P', 'W', 'R'] : List Char).take 3 ≠ ['C', 'T', 'V'] ∧
    ∃ n, filterForMessage ['P', 'W', 'R'] [(none, 6)]
      = some (FMOut.timeoutError, n) :=
  ⟨by decide,
    request_timeout ['P', 'W', 'R'] [(none, 6)] (by decide)
      (by intro p hp; simp at hp; subst hp; rfl)
      ⟨(none, 6), by simp, by norm_num⟩⟩

/-- A Python value passed as a command argument: an `int`, a `str`, or
`None` (`arguments` defaults to `None` and is used as the argument when it
is not a list). -/
inductive PyVal where
  | int : Int → PyVal
  | str : List Char → PyVal
  | pynone : PyVal
deriving DecidableEq

/-- One key of a `VALUE_MAPPINGS[zone][code]` dict, in iteration order:
an ordinary alias key mapping to a wire-value string, or a
`utils.ValueRange` key.  Modelled from the spec: `commands.py` and
`utils.py` are not among the sources; the spec describes the catalogue's
value tables as alias lookups plus numeric-range descriptors, so a range
key carries its bounds and `int(argument) in possible_arg` is
`lo ≤ n ∧ n ≤ hi`.  A range key never compares equal to an `int`/`str`
argument in a dict lookup. -/
inductive VKey where
  | alias : PyVal → List Char → VKey
  | vrange : Int → Int → VKey
deriving DecidableEq

/-- Modelled from the spec: the external command catalogue (`commands.py`)
is an immutable lookup structure not among the sources.  Python dicts are
association lists preserving iteration order: `ZONE_MAPPINGS` (zone
aliases), `COMMANDS` (each zone's known 3-character command codes),
`COMMAND_MAPPINGS` (per-zone command-name aliases) and `VALUE_MAPPINGS`
(per-zone, per-code value tables). -/
structure Catalogue where
  zoneMappings : List (List Char × List Char)
  commands : List (List Char × List (List Char))
  commandMappings : List (List Char × List (List Char × List Char))
  valueMappings : List (List Char × List (List Char × List VKey))

/-- Python dict lookup `d[k]` on an association list. -/
def alookup {α β : Type} [DecidableEq α] (m : List (α × β)) (k : α) : Option β :=
  match m with
  | [] => none
  | (k2, v) :: rest => if k2 = k then some v else alookup rest k

/-- Exception kinds `command_to_iscp` can produce.  `valueError` covers the
Translation errors the function raises itself (and `int()` failures);
`keyError` models indexing a dict with a missing key outside the guarded
`try`; `indexError` models `arguments[0]` on an empty list; `unboundLocal`
models reaching the final `format` with the local `value` never assigned. -/
inductive PyErr where
  | valueError : PyErr
  | keyError : PyErr
  | indexError : PyErr
  | unboundLocal : PyErr
deriving DecidableEq

/-- The `arguments` parameter of `command_to_iscp`: Python `None`, a bare
(non-list) value, or a list. -/
inductive ArgsParam where
  | anone : ArgsParam
  | aval : PyVal → ArgsParam
  | alist : List PyVal → ArgsParam
deriving DecidableEq

/-- Python `str.strip()` whitespace (ASCII part). -/
def isPySpace (c : Char) : Bool :=
  c = ' ' || c = '\t' || c = '\n' || c = '\r' || c.toNat = 11 || c.toNat = 12

/-- `norm`: `s.strip().lower()`. -/
def pyNorm (s : List Char) : List Char :=
  (((s.dropWhile isPySpace).reverse.dropWhile isPySpace).reverse).map Char.toLower

/-- `re.split(pattern, s, 1)` for a single-character class: the part before
the first separator, and the remainder when a separator occurs. -/
def splitFirstOn (p : Char → Bool) (s : List Char) :
    List Char × Option (List Char) :=
  match s with
  | [] => ([], none)
  | c :: rest =>
    if p c then ([], some rest)
    else
      let q := splitFirstOn p rest
      (c :: q.1, q.2)

/-- `re.split(pattern, s)` for a single-character class: split at every
separator, keeping empty pieces; the result is never empty. -/
def splitAllOn (p : Char → Bool) (s : List Char) : List (List Char) :=
  match s with
  | [] => [[]]
  | c :: rest =>
    let q := splitAllOn p rest
    if p c then [] :: q
    else
      match q with
      | piece :: more => (c :: piece) :: more
      | [] => [[c]]

/-- `command_sep = r'[. ]'`. -/
def isCmdSep (c : Char) : Bool := c = '.' || c = ' '

/-- The class `[:=]` separating a compact command from its arguments. -/
def isColonEq (c : Char) : Bool := c = ':' || c = '='

/-- The class `[ ,]` separating arguments of a compact command. -/
def isArgSep (c : Char) : Bool := c = ' ' || c = ','

def isDigitCh (c : Char) : Bool := '0' ≤ c && c ≤ '9'

/-- The numeric-argument guard of line 225:
`type(argument) is int or (type(argument) is str and
argument.lstrip('-').isdigit())`. -/
def pyIsNumeric : PyVal → Bool
  | .int _ => true
  | .str s =>
    let t := s.dropWhile (fun c => c = '-')
    t ≠ [] && t.all isDigitCh
  | .pynone => false

def digitsToNat (s : List Char) : Nat :=
  s.foldl (fun a c => a * 10 + (c.toNat - 48)) 0

/-- Python `int(argument)` as used on arguments passing the numeric guard;
`none` models the `ValueError` that `int()` itself raises (for example on
a string with more than one leading minus sign, which the guard lets
through). -/
def pyInt : PyVal → Option Int
  | .int n => some n
  | .str s =>
    match s with
    | '-' :: rest =>
      if rest ≠ [] && rest.all isDigitCh then some (-(digitsToNat rest : Int))
      else none
    | _ => if s ≠ [] && s.all isDigitCh then some ((digitsToNat s : Int)) else none
  | .pynone => none

/-- Lowercase hex digit, as Python `hex` produces. -/
def hexDigitCh (d : Nat) : Char :=
  if d < 10 then Char.ofNat (48 + d) else Char.ofNat (87 + d)

/-- Repeated division by 16, accumulating hex digits; structurally
recursive on a fuel argument so that it reduces in the kernel.  Since each
step divides `n` by 16, a fuel of `n` always suffices. -/
def natToHexAux : Nat → Nat → List Char → List Char
  | 0, _, acc => acc
  | fuel + 1, n, acc =>
    if n = 0 then acc
    else natToHexAux fuel (n / 16) (hexDigitCh (n % 16) :: acc)

def natToHexCore (n : Nat) (acc : List Char) : List Char :=
  natToHexAux n n acc

/-- Hex digits of `n` without leading zeros (`'0'` for zero), lowercase. -/
def pyHexDigits (n : Nat) : List Char :=
  if n = 0 then ['0'] else natToHexCore n []

/-- Python `hex(n)`: `'0x'`-prefixed digits, `'-0x'`-prefixed for
negatives. -/
def pyHex (n : Int) : List Char :=
  if n < 0 then '-' :: '0' :: 'x' :: pyHexDigits n.natAbs
  else '0' :: 'x' :: pyHexDigits n.toNat

/-- `.zfill(2)` as applied in `command_to_iscp`: the sliced hex text never
begins with a sign, so left padding with `'0'` is Python's behaviour. -/
def zfill2 (s : List Char) : List Char :=
  if s.length < 2 then List.replicate (2 - s.length) '0' ++ s else s

/-- Line 229: `hex(int(argument))[2:].zfill(2).upper()`. -/
def hexOfArg (n : Int) : List Char :=
  (zfill2 ((pyHex n).drop 2)).map Char.toUpper

/-- Lines 230-238, the `SWL`/`CTL` signed-offset rewrite: `'00'` gains a
literal leading `'0'`; a code not starting with `'X'` gains `'+'`; a code
starting with `'X'` (upper-cased hex of a negative) becomes `'-'` plus the
digits, zero-padded when there was a single digit. -/
def signedAdjust (value : List Char) : List Char :=
  if value = ['0', '0'] then '0' :: value
  else if value.head? ≠ some 'X' then '+' :: value
  else
    let v := if value.length = 2 then '-' :: '0' :: value.drop 1 else value
    '-' :: v.drop 1

/-- The encoding of an in-range integer argument for command code `pfx`
(lines 229-238). -/
def encodeVal (pfx : List Char) (n : Int) : List Char :=
  let value := hexOfArg n
  if pfx = ['S', 'W', 'L'] ∨ pfx = ['C', 'T', 'L'] then signedAdjust value
  else value

/-- `VALUE_MAPPINGS[group][code][argument]`: dict lookup of the argument
among the alias keys (a `ValueRange` key never equals the argument). -/
def vtLookup (entries : List VKey) (arg : PyVal) : Option (List Char) :=
  match entries with
  | [] => none
  | .alias k w :: rest => if k = arg then some w else vtLookup rest arg
  | .vrange _ _ :: rest => vtLookup rest arg

/-- The `except KeyError` loop over the value-table keys (lines 224-244):
for a numeric argument, break at the first range containing it, with the
encoded value; a non-numeric argument raises the Translation `ValueError`
on the first iteration; falling off the end leaves `value` unbound
(`.ok none`). -/
def resolveLoop (pfx : List Char) (arg : PyVal) :
    List VKey → Except PyErr (Option (List Char))
  | [] => .ok none
  | e :: rest =>
    if pyIsNumeric arg then
      match e with
      | .vrange lo hi =>
        match pyInt arg with
        | none => .error .valueError
        | some n =>
          if lo ≤ n ∧ n ≤ hi then .ok (some (encodeVal pfx n))
          else resolveLoop pfx arg rest
      | .alias _ _ => resolveLoop pfx arg rest
    else .error .valueError

/-- Lines 214-217: `argument = arguments[0]` for a list (IndexError when
empty), else `argument = arguments` (possibly `None`). -/
def extractArgument (args : ArgsParam) : Except PyErr PyVal :=
  match args with
  | .alist [] => .error .indexError
  | .alist (a :: _) => .ok a
  | .aval v => .ok v
  | .anone => .ok PyVal.pynone

/-- `command_to_iscp` after the zone check (lines 204-246), in the
alias-mapped zone `group`: resolve the command-name alias, validate the
code, extract the argument, try the alias lookup, then the range loop.
The Python `try` around `VALUE_MAPPINGS[group][prefix][argument]` catches
only the `KeyError` of that triple lookup; a `group` or code missing
from `VALUE_MAPPINGS` then raises `KeyError` again, uncaught, inside the
`except` block — modelled by the `keyError` results here. -/
def resolveInGroup (cat : Catalogue) (group command : List Char)
    (args : ArgsParam) : Except PyErr (List Char) :=
  match alookup cat.commandMappings group with
  | none => .error .keyError
  | some cmdMap =>
    let pfx := (alookup cmdMap command).getD command
    match alookup cat.commands group with
    | none => .error .keyError
    | some codes =>
      if pfx ∈ codes then
        match extractArgument args with
        | .error e => .error e
        | .ok argument =>
          match alookup cat.valueMappings group with
          | none => .error .keyError
          | some pm =>
            match alookup pm pfx with
            | none => .error .keyError
            | some entries =>
              match vtLookup entries argument with
              | some w => .ok (pfx ++ w)
              | none =>
                match resolveLoop pfx argument entries with
                | .error e => .error e
                | .ok (some v) => .ok (pfx ++ v)
                | .ok none => .error .unboundLocal
      else .error .valueError

/-- Lines 200-207: `group = ZONE_MAPPINGS.get(zone, zone)`, then the
known-zone check `if not zone in commands.COMMANDS` — on the original
`zone`, not on `group` (`None` is never a key). -/
def resolveZone (cat : Catalogue) (zoneR : Option (List Char))
    (command : List Char) (args : ArgsParam) : Except PyErr (List Char) :=
  match zoneR with
  | none => .error .valueError
  | some z =>
    if (alookup cat.commands z).isSome then
      resolveInGroup cat ((alookup cat.zoneMappings z).getD z) command args
    else .error .valueError

/-- Lines 174-197: the compact-string parsing stage, used when both
`arguments` and `zone` are `None`; yields `(zone, command, arguments)`. -/
def parseCommand (command : List Char) :
    Except PyErr (Option (List Char) × List Char × ArgsParam) :=
  if command.any isColonEq then
    let q := splitFirstOn isColonEq command
    let argstr := q.2.getD []
    let parts := (splitAllOn isCmdSep q.1).map pyNorm
    let zc : Option (List Char) × List Char :=
      match parts with
      | [z, c] => (some z, c)
      | c :: _ => (some ['m', 'a', 'i', 'n'], c)
      | [] => (some ['m', 'a', 'i', 'n'], [])
    let args := (splitAllOn isArgSep argstr).map pyNorm
    .ok (zc.1, zc.2, .alist (args.map PyVal.str))
  else
    match (splitAllOn isCmdSep command).map pyNorm with
    | z :: c :: a :: rest => .ok (some z, c, .alist ((a :: rest).map PyVal.str))
    | [c, a] => .ok (some ['m', 'a', 'i', 'n'], c, .alist [PyVal.str a])
    | _ => .error .valueError

/-- `command_to_iscp(command, arguments=None, zone=None)` (lines 139-246):
parse the compact form only when both `arguments` and `zone` are `None`
(otherwise they are used as given, `zone` possibly `None`), then resolve. -/
def commandToIscp (cat : Catalogue) (command : List Char) (args : ArgsParam)
    (zone : Option (List Char)) : Except PyErr (List Char) :=
  match args, zone with
  | .anone, none =>
    match parseCommand command with
    | .error e => .error e
    | .ok (zoneR, commandR, argsR) => resolveZone cat zoneR commandR argsR
  | _, _ => resolveZone cat zone command args

deriving instance DecidableEq for Except

/-- A catalogue where zone `main` knows the command code `MVL` whose value
table is the single numeric range 0–100 (the spec's volume example). -/
def cat3 : Catalogue :=
  { zoneMappings := []
  , commands := [(['m', 'a', 'i', 'n'], [['M', 'V', 'L']])]
  , commandMappings := [(['m', 'a', 'i', 'n'], [])]
  , valueMappings := [(['m', 'a', 'i', 'n'], [(['M', 'V', 'L'], [VKey.vrange 0 100])])] }

/-- Claim C3 (code bug): for the valid zone `main` and command code `MVL`
with the single declared range 0–100, the integer argument 200 — outside
every declared range — makes `command_to_iscp` run the value loop to the
end without assigning `value` (the original `for`/`else` is indented as an
`if`/`else` inside the loop), so the final `'..'.format(prefix, value)`
raises `UnboundLocalError`, not the Translation `ValueError` that the
claim, the spec and the function's own docstring (`Raises ValueError if
command is not valid`) promise.  The other half of the claim does hold: a
non-numeric argument with no alias raises the `ValueError` (and an
in-range argument still encodes, showing the inputs are otherwise valid). -/
theorem out_of_range_unbound_local :
    commandToIscp cat3 ['M', 'V', 'L'] (.aval (.int 200)) (some ['m', 'a', 'i', 'n'])
      = .error .unboundLocal ∧
    commandToIscp cat3 ['M', 'V', 'L'] (.aval (.int 200)) (some ['m', 'a', 'i', 'n'])
      ≠ .error .valueError ∧
    commandToIscp cat3 ['M', 'V', 'L'] (.aval (.str ['l', 'o', 'u', 'd'])) (some ['m', 'a', 'i', 'n'])
      = .error .valueError ∧
    commandToIscp cat3 ['M', 'V', 'L'] (.aval (.int 50)) (some ['m', 'a', 'i', 'n'])
      = .ok ['M', 'V', 'L', '3', '2'] := by
  refine ⟨by decide, by decide, by decide, by decide⟩

/-- A catalogue with a zone alias `z2 ↦ zone2` whose image `zone2` is a
known zone accepting code `ZPW` with value alias `on ↦ 01`. -/
def cat8 : Catalogue :=
  { zoneMappings := [(['z', '2'], ['z', 'o', 'n', 'e', '2'])]
  , commands := [(['z', 'o', 'n', 'e', '2'], [['Z', 'P', 'W']])]
  , commandMappings := [(['z', 'o', 'n', 'e', '2'], [])]
  , valueMappings := [(['z', 'o', 'n', 'e', '2'],
      [(['Z', 'P', 'W'], [VKey.alias (PyVal.str ['o', 'n']) ['0', '1']])])] }

/-- Claim C8 (counterexample): the zone name `z2` has alias image `zone2`,
which is a known zone — the same call with `zone2` itself succeeds — yet
`command_to_iscp` raises the `not a valid zone` `ValueError` for `z2`,
because line 201 validates the original `zone`, not the alias image
`group`. -/
theorem zone_alias_cex :
    commandToIscp cat8 ['Z', 'P', 'W'] (.aval (.str ['o', 'n']))
        (some ['z', 'o', 'n', 'e', '2'])
      = .ok ['Z', 'P', 'W', '0', '1'] ∧
    commandToIscp cat8 ['Z', 'P', 'W'] (.aval (.str ['o', 'n']))
        (some ['z', '2'])
      = .error .valueError := by
  refine ⟨by decide, by decide⟩

/-- Claim C8 (amended): the zone name is mapped through `ZONE_MAPPINGS`,
but the known-zone validation tests the ORIGINAL zone name against
`COMMANDS`: whenever the original name is itself a known zone, no
`not a valid zone` error is raised and the per-zone command lookup is
performed in the mapped zone `group = ZONE_MAPPINGS.get(zone, zone)`;
a name that is only a key of the alias table is rejected even when its
image is known. -/
theorem zone_alias_mapping (cat : Catalogue) (cmd : List Char)
    (args : ArgsParam) (z : List Char)
    (hz : (alookup cat.commands z).isSome = true) :
    commandToIscp cat cmd args (some z)
      = resolveInGroup cat ((alookup cat.zoneMappings z).getD z) cmd args := by
  cases args <;> simp [commandToIscp, resolveZone, hz]

/-- Witness for `zone_alias_mapping` on `cat8` with the known name
`zone2`. -/
theorem zone_alias_mapping_witness :
    (alookup cat8.commands ['z', 'o', 'n', 'e', '2']).isSome = true ∧
    commandToIscp cat8 ['Z', 'P', 'W'] (.aval (.str ['o', 'n']))
        (some ['z', 'o', 'n', 'e', '2'])
      = resolveInGroup cat8
          ((alookup cat8.zoneMappings ['z', 'o', 'n', 'e', '2']).getD
            ['z', 'o', 'n', 'e', '2'])
          ['Z', 'P', 'W'] (.aval (.str ['o', 'n'])) :=
  ⟨by decide,
    zone_alias_mapping cat8 ['Z', 'P', 'W'] (.aval (.str ['o', 'n']))
      ['z', 'o', 'n', 'e', '2'] (by decide)⟩

theorem extractArgument_alist_head (a : PyVal) (rest : List PyVal) :
    extractArgument (.alist (a :: rest)) = extractArgument (.alist [a]) := rfl

theorem resolveInGroup_alist_head (cat : Catalogue) (g cmd : List Char)
    (a : PyVal) (rest : List PyVal) :
    resolveInGroup cat g cmd (.alist (a :: rest))
      = resolveInGroup cat g cmd (.alist [a]) := by
  unfold resolveInGroup
  rw [extractArgument_alist_head]

/-- A catalogue where zone `main` maps the command name `volume` to the
code `MVL` whose value table is the numeric range 0–100. -/
def cat10 : Catalogue :=
  { zoneMappings := []
  , commands := [(['m', 'a', 'i', 'n'], [['M', 'V', 'L']])]
  , commandMappings := [(['m', 'a', 'i', 'n'],
      [(['v', 'o', 'l', 'u', 'm', 'e'], ['M', 'V', 'L'])])]
  , valueMappings := [(['m', 'a', 'i', 'n'], [(['M', 'V', 'L'], [VKey.vrange 0 100])])] }

/-- Claim C10: `command_to_iscp` line 215 uses only `arguments[0]`:
(i) with an explicit argument list, every element after the first is
ignored and the result equals the call with the first argument alone;
(ii) a compact command string whose parse stage yields zone, command and
a (comma/space-split) argument list behaves exactly like the explicit
call carrying only the first parsed argument. -/
theorem only_first_argument_used :
    (∀ (cat : Catalogue) (cmd : List Char) (zone : Option (List Char))
        (a : PyVal) (rest : List PyVal),
      commandToIscp cat cmd (.alist (a :: rest)) zone
        = commandToIscp cat cmd (.alist [a]) zone) ∧
    (∀ (cat : Catalogue) (s cmd : List Char) (z : Option (List Char))
        (a : PyVal) (rest : List PyVal),
      parseCommand s = .ok (z, cmd, .alist (a :: rest)) →
      commandToIscp cat s .anone none
        = commandToIscp cat cmd (.alist [a]) z) := by
  constructor
  · intro cat cmd zone a rest
    unfold commandToIscp
    cases zone with
    | none => simp [resolveZone, resolveInGroup_alist_head]
    | some z =>
      simp only [resolveZone]
      by_cases hz : (alookup cat.commands z).isSome
      · simp [hz, resolveInGroup_alist_head]
      · simp [hz]
  · intro cat s cmd z a rest hparse
    show (match parseCommand s with
          | .error e => .error e
          | .ok (zoneR, commandR, argsR) => resolveZone cat zoneR commandR argsR)
        = commandToIscp cat cmd (.alist [a]) z
    rw [hparse]
    cases z with
    | none => simp [commandToIscp, resolveZone, resolveInGroup_alist_head]
    | some zz =>
      simp only [commandToIscp, resolveZone]
      by_cases hz : (alookup cat.commands zz).isSome
      · simp [hz, resolveInGroup_alist_head]
      · simp [hz]

/-- Witness for `only_first_argument_used`: on `cat10`, the compact string
`main.volume=22,33` parses to the argument list `[22, 33]`, equals the
explicit single-argument call, and both produce `MVL16` (hex of 22) —
the `33` is silently ignored. -/
theorem only_first_argument_used_witness :
    parseCommand ['m', 'a', 'i', 'n', '.', 'v', 'o', 'l', 'u', 'm', 'e', '=', '2', '2', ',', '3', '3']
      = .ok (some ['m', 'a', 'i', 'n'], ['v', 'o', 'l', 'u', 'm', 'e'],
             .alist [PyVal.str ['2', '2'], PyVal.str ['3', '3']]) ∧
    commandToIscp cat10 ['m', 'a', 'i', 'n', '.', 'v', 'o', 'l', 'u', 'm', 'e', '=', '2', '2', ',', '3', '3'] .anone none
      = commandToIscp cat10 ['v', 'o', 'l', 'u', 'm', 'e']
          (.alist [PyVal.str ['2', '2']]) (some ['m', 'a', 'i', 'n']) ∧
    commandToIscp cat10 ['v', 'o', 'l', 'u', 'm', 'e']
        (.alist [PyVal.str ['2', '2'], PyVal.str ['3', '3']]) (some ['m', 'a', 'i', 'n'])
      = .ok ['M', 'V', 'L', '1', '6'] :=
  ⟨by decide,
    only_first_argument_used.2 cat10
      ['m', 'a', 'i', 'n', '.', 'v', 'o', 'l', 'u', 'm', 'e', '=', '2', '2', ',', '3', '3']
      ['v', 'o', 'l', 'u', 'm', 'e'] (some ['m', 'a', 'i', 'n'])
      (PyVal.str ['2', '2']) [PyVal.str ['3', '3']] (by decide),
    by decide⟩

theorem natToHexAux_zero (fuel : Nat) (acc : List Char) :
    natToHexAux fuel 0 acc = acc := by
  cases fuel with
  | zero => rfl
  | succ f => simp [natToHexAux]

theorem natToHexAux_step (fuel n : Nat) (acc : List Char) (hn : n ≠ 0) :
    natToHexAux (fuel + 1) n acc
      = natToHexAux fuel (n / 16) (hexDigitCh (n % 16) :: acc) := by
  simp [natToHexAux, hn]

theorem natToHexAux_head (fuel : Nat) :
    ∀ (n : Nat) (acc : List Char), n ≠ 0 → n ≤ fuel →
      ∃ d rest, natToHexAux fuel n acc = hexDigitCh d :: rest ∧ 0 < d ∧ d < 16 := by
  induction fuel with
  | zero => intro n acc hn hle; omega
  | succ f ih =>
    intro n acc hn hle
    rw [natToHexAux_step f n acc hn]
    by_cases h16 : n / 16 = 0
    · rw [h16, natToHexAux_zero]
      exact ⟨n % 16, acc, rfl, by omega, by omega⟩
    · exact ih (n / 16) (hexDigitCh (n % 16) :: acc) h16 (by omega)

theorem pyHexDigits_head (n : Nat) (hn : n ≠ 0) :
    ∃ d rest, pyHexDigits n = hexDigitCh d :: rest ∧ 0 < d ∧ d < 16 := by
  unfold pyHexDigits natToHexCore
  rw [if_neg hn]
  exact natToHexAux_head n n [] hn le_rfl

theorem pyHexDigits_small {n : Nat} (h1 : n ≠ 0) (h2 : n < 16) :
    pyHexDigits n = [hexDigitCh n] := by
  unfold pyHexDigits natToHexCore
  rw [if_neg h1]
  obtain ⟨f, hf⟩ : ∃ f, n = f + 1 := ⟨n - 1, by omega⟩
  rw [hf, natToHexAux_step f (f + 1) [] (by omega)]
  have hd : (f + 1) / 16 = 0 := by omega
  have hm : (f + 1) % 16 = f + 1 := by omega
  rw [hd, hm, natToHexAux_zero]

theorem pyHexDigits_two {n : Nat} (h1 : 16 ≤ n) (h2 : n < 256) :
    pyHexDigits n = [hexDigitCh (n / 16), hexDigitCh (n % 16)] := by
  unfold pyHexDigits natToHexCore
  rw [if_neg (by omega)]
  obtain ⟨f, hf⟩ : ∃ f, n = f + 2 := ⟨n - 2, by omega⟩
  subst hf
  rw [natToHexAux_step (f + 1) (f + 2) [] (by omega)]
  rw [natToHexAux_step f ((f + 2) / 16) _ (by omega)]
  have hd : (f + 2) / 16 / 16 = 0 := by omega
  have hm : (f + 2) / 16 % 16 = (f + 2) / 16 := by omega
  rw [hd, hm, natToHexAux_zero]

theorem hexDigitCh_upper_ne_X {d : Nat} (h : d < 16) :
    Char.toUpper (hexDigitCh d) ≠ 'X' := by
  interval_cases d <;> decide

theorem hexDigitCh_upper_ne_zero {d : Nat} (h0 : 0 < d) (h : d < 16) :
    Char.toUpper (hexDigitCh d) ≠ '0' := by
  interval_cases d <;> decide

theorem zfill2_two {l : List Char} (h : 2 ≤ l.length) : zfill2 l = l := by
  unfold zfill2
  rw [if_neg (by omega)]

theorem signedAdjust_plus {v : List Char} (h00 : v ≠ ['0', '0'])
    (hX : v.head? ≠ some 'X') : signedAdjust v = '+' :: v := by
  unfold signedAdjust
  rw [if_neg h00, if_pos hX]

theorem signedAdjust_pos (m : Nat) (hm : m ≠ 0) :
    signedAdjust ((zfill2 (pyHexDigits m)).map Char.toUpper)
      = '+' :: (zfill2 (pyHexDigits m)).map Char.toUpper := by
  obtain ⟨d, r, hx, hd0, hd16⟩ := pyHexDigits_head m hm
  rw [hx]
  cases r with
  | nil =>
    have hz : zfill2 [hexDigitCh d] = ['0', hexDigitCh d] := rfl
    rw [hz, List.map_cons, List.map_cons, List.map_nil]
    apply signedAdjust_plus
    · simp only [ne_eq, List.cons.injEq]
      intro hcontra
      exact hexDigitCh_upper_ne_zero hd0 hd16 hcontra.2.1
    · simp only [List.head?_cons, ne_eq, Option.some.injEq]
      decide
  | cons r1 r2 =>
    rw [zfill2_two (by simp)]
    rw [List.map_cons]
    apply signedAdjust_plus
    · simp only [ne_eq, List.cons.injEq]
      intro hcontra
      exact hexDigitCh_upper_ne_zero hd0 hd16 hcontra.1
    · simp only [List.head?_cons, ne_eq, Option.some.injEq]
      exact hexDigitCh_upper_ne_X hd16

theorem signedAdjust_neg (m : Nat) (hm : m ≠ 0) (hle : m ≤ 255) :
    signedAdjust ((zfill2 ('x' :: pyHexDigits m)).map Char.toUpper)
      = '-' :: (zfill2 (pyHexDigits m)).map Char.toUpper := by
  by_cases hsm : m < 16
  · rw [pyHexDigits_small hm hsm]
    rfl
  · rw [pyHexDigits_two (by omega) (by omega)]
    rfl

/-- Claim C5's signed-offset display, written from the spec's words: the
all-zero code is `000`; a positive value is `'+'` and the uppercase
two-digit-zero-padded hex of `n`; a negative value is `'-'` and the
uppercase two-digit-zero-padded hex of `n.natAbs` — exactly two hex digits
whenever the absolute value is at most 255. -/
def signedOffsetSpec (n : Int) : List Char :=
  if n = 0 then ['0', '0', '0']
  else if 0 < n then '+' :: (zfill2 (pyHexDigits n.toNat)).map Char.toUpper
  else '-' :: (zfill2 (pyHexDigits n.natAbs)).map Char.toUpper

theorem encodeVal_signed (pfx : List Char) (n : Int)
    (hp : pfx = ['S', 'W', 'L'] ∨ pfx = ['C', 'T', 'L'])
    (hneg : -255 ≤ n) :
    encodeVal pfx n = signedOffsetSpec n := by
  rcases lt_trichotomy n 0 with hn | hn | hn
  · unfold encodeVal hexOfArg pyHex signedOffsetSpec
    rw [if_pos hp, if_pos hn, if_neg (by omega : ¬n = 0),
        if_neg (by omega : ¬(0 : Int) < n)]
    exact signedAdjust_neg n.natAbs (by omega) (by omega)
  · subst hn
    rcases hp with hp | hp <;> subst hp <;> decide
  · unfold encodeVal hexOfArg pyHex signedOffsetSpec
    rw [if_pos hp, if_neg (by omega : ¬n < 0), if_neg (by omega : ¬n = 0),
        if_pos hn]
    exact signedAdjust_pos n.toNat (by omega)

theorem resolveLoop_int_alias (pfx : List Char) (k : PyVal) (w : List Char)
    (n : Int) (rest : List VKey) :
    resolveLoop pfx (.int n) (.alias k w :: rest)
      = resolveLoop pfx (.int n) rest := rfl

theorem resolveLoop_int_range (pfx : List Char) (lo hi n : Int)
    (rest : List VKey) :
    resolveLoop pfx (.int n) (.vrange lo hi :: rest)
      = if lo ≤ n ∧ n ≤ hi then .ok (some (encodeVal pfx n))
        else resolveLoop pfx (.int n) rest := rfl

theorem resolveLoop_int_hit (pfx : List Char) (n : Int) (entries : List VKey)
    (hhit : ∃ lo hi, VKey.vrange lo hi ∈ entries ∧ lo ≤ n ∧ n ≤ hi) :
    resolveLoop pfx (.int n) entries = .ok (some (encodeVal pfx n)) := by
  induction entries with
  | nil => simp at hhit
  | cons e rest ih =>
    obtain ⟨lo, hi, hmem, h1, h2⟩ := hhit
    rcases e with ⟨k, w⟩ | ⟨lo2, hi2⟩
    · have hmem' : VKey.vrange lo hi ∈ rest := by
        rcases List.mem_cons.mp hmem with hc | hc
        · exact absurd hc (by simp)
        · exact hc
      rw [resolveLoop_int_alias]
      exact ih ⟨lo, hi, hmem', h1, h2⟩
    · rw [resolveLoop_int_range]
      by_cases hc : lo2 ≤ n ∧ n ≤ hi2
      · rw [if_pos hc]
      · rw [if_neg hc]
        have hmem' : VKey.vrange lo hi ∈ rest := by
          rcases List.mem_cons.mp hmem with hm2 | hm2
          · cases hm2
            exact absurd ⟨h1, h2⟩ hc
          · exact hm2
        exact ih ⟨lo, hi, hmem', h1, h2⟩

/-- Claim C5: when `command_to_iscp` resolves (in the alias-mapped zone) to
command code `SWL` or `CTL`, for an integer argument `n` that misses the
value-alias lookup and lies inside a declared range, the produced wire code
is the code followed by the signed-offset display of `n`: `000` when
`n = 0` (a literal leading `0` before the two zero hex digits); `'+'` plus
the uppercase two-digit-zero-padded hex for `n > 0`; `'-'` plus exactly two
uppercase hex digits of the absolute value for `n < 0` with `-255 ≤ n`. -/
theorem swl_ctl_signed_offset (cat : Catalogue) (cmd z pfx : List Char)
    (cmdMap : List (List Char × List Char)) (codes : List (List Char))
    (vm : List (List Char × List VKey)) (entries : List VKey) (n : Int)
    (hzv : (alookup cat.commands z).isSome = true)
    (hcm : alookup cat.commandMappings ((alookup cat.zoneMappings z).getD z)
        = some cmdMap)
    (hpfx : (alookup cmdMap cmd).getD cmd = pfx)
    (hcl : alookup cat.commands ((alookup cat.zoneMappings z).getD z)
        = some codes)
    (hmem : pfx ∈ codes)
    (hvm : alookup cat.valueMappings ((alookup cat.zoneMappings z).getD z)
        = some vm)
    (hvt : alookup vm pfx = some entries)
    (halias : vtLookup entries (.int n) = none)
    (hhit : ∃ lo hi, VKey.vrange lo hi ∈ entries ∧ lo ≤ n ∧ n ≤ hi)
    (hp : pfx = ['S', 'W', 'L'] ∨ pfx = ['C', 'T', 'L'])
    (hneg : -255 ≤ n) :
    commandToIscp cat cmd (.aval (.int n)) (some z)
      = .ok (pfx ++ signedOffsetSpec n) := by
  have hmain : commandToIscp cat cmd (.aval (.int n)) (some z)
      = resolveInGroup cat ((alookup cat.zoneMappings z).getD z) cmd
          (.aval (.int n)) := by
    simp [commandToIscp, resolveZone, hzv]
  rw [hmain]
  unfold resolveInGroup
  rw [hcm]
  simp only [hpfx, hcl, hvm, hvt, halias, extractArgument]
  rw [if_pos hmem]
  rw [resolveLoop_int_hit pfx n entries hhit]
  rw [encodeVal_signed pfx n hp hneg]

/-- A catalogue where zone `main` knows the code `SWL` with a single
declared range from -15 to 12 (the subwoofer-level shape). -/
def cat5 : Catalogue :=
  { zoneMappings := []
  , commands := [(['m', 'a', 'i', 'n'], [['S', 'W', 'L']])]
  , commandMappings := [(['m', 'a', 'i', 'n'], [])]
  , valueMappings := [(['m', 'a', 'i', 'n'],
      [(['S', 'W', 'L'], [VKey.vrange (-15) 12])])] }

/-- Witness for `swl_ctl_signed_offset`: on `cat5`, `SWL` with argument
`-5` (inside the range -15..12) encodes to `SWL-05`. -/
theorem swl_ctl_signed_offset_witness :
    (∃ lo hi, VKey.vrange lo hi ∈ [VKey.vrange (-15) 12]
        ∧ lo ≤ (-5 : Int) ∧ (-5 : Int) ≤ hi) ∧
    commandToIscp cat5 ['S', 'W', 'L'] (.aval (.int (-5)))
        (some ['m', 'a', 'i', 'n'])
      = .ok (['S', 'W', 'L'] ++ signedOffsetSpec (-5)) ∧
    ['S', 'W', 'L'] ++ signedOffsetSpec (-5) = ['S', 'W', 'L', '-', '0', '5'] :=
  ⟨⟨-15, 12, by decide, by decide, by decide⟩,
    swl_ctl_signed_offset cat5 ['S', 'W', 'L'] ['m', 'a', 'i', 'n']
      ['S', 'W', 'L'] [] [['S', 'W', 'L']] [(['S', 'W', 'L'], [VKey.vrange (-15) 12])]
      [VKey.vrange (-15) 12] (-5)
      (by decide) (by decide) (by decide) (by decide) (by decide) (by decide)
      (by decide) (by decide)
      ⟨-15, 12, by decide, by decide, by decide⟩ (Or.inl rfl) (by decide),
    by decide⟩
